import Mathlib

/-!
Verification development for the type-descriptor core of a managed-language
runtime (`mirror/class.cc`): the class status state machine (`SetStatus`),
lazy extension-data installation (`EnsureExtDataPresent`), sorted-field-table
lookup (`FindFieldByNameAndType`), static-field resolution through superclass
and interface graphs (`FindStaticField`), interface-super default-method
conflict resolution (`FindVirtualMethodForInterfaceSuper`), run-time package
membership (`IsInSamePackage`) and the class-size setter (`SetClassSize`).
Each definition is a shallow embedding of the corresponding source function;
strings are compared lexicographically by character, machine pointers are
represented by `Nat` identities, and the calling thread's pending-exception
channel is passed explicitly.
-/

namespace ArtMirror

/-- Modelled from the spec: the `Status` enum of the class linking state
machine, declared in the class header (only its uses appear in
`class.cc`).  Values are in increasing order
`NotReady < Idx < Loaded < Resolving < Resolved < Verifying <
RetryVerificationAtRuntime < VerifyingAtRuntime < Verified < Initializing <
Initialized`, with the sanctioned regression targets `Retired`,
`ErrorResolved` and `ErrorUnresolved` numerically below `NotReady`. -/
inductive Status where
  | retired
  | errorResolved
  | errorUnresolved
  | notReady
  | idx
  | loaded
  | resolving
  | resolved
  | verifying
  | retryVerificationAtRuntime
  | verifyingAtRuntime
  | verified
  | initializing
  | initialized
deriving DecidableEq, Repr

/-- Numeric value of each status, used by the source's enum comparisons. -/
def statusCode : Status → Int
  | .retired => -3
  | .errorResolved => -2
  | .errorUnresolved => -1
  | .notReady => 0
  | .idx => 1
  | .loaded => 2
  | .resolving => 3
  | .resolved => 4
  | .verifying => 5
  | .retryVerificationAtRuntime => 6
  | .verifyingAtRuntime => 7
  | .verified => 8
  | .initializing => 9
  | .initialized => 10

/-- Enum comparison `a <= b` on statuses. -/
def statusLe (a b : Status) : Bool := decide (statusCode a ≤ statusCode b)

/-- Enum comparison `a < b` on statuses. -/
def statusLt (a b : Status) : Bool := decide (statusCode a < statusCode b)

/-- Helper `IsErroneous(status)`: the two error states. -/
def IsErroneousStatus (s : Status) : Bool :=
  s = Status.errorUnresolved ∨ s = Status.errorResolved

/-- A throwable held in a thread's pending-exception slot: either the
out-of-memory error pre-allocated by the runtime or an ordinary exception
distinguished by identity. -/
inductive ThrowableM where
  | oom
  | exc (id : Nat)
deriving DecidableEq, Repr

/-- The `ClassExt` side record (`ext_data_`): allocation identity plus the
captured verification-failure cause (`SetVerifyError`). -/
structure ClassExtM where
  id : Nat
  verifyError : Option ThrowableM
deriving DecidableEq, Repr

/-- State of one class object as read and written by `SetStatus` and
`EnsureExtDataPresent`: current status, whether the instance is a temporary
one (`IsTemp()`), whether the calling thread owns the object's monitor
(`GetLockOwnerThreadId() == self->GetThreadId()`), the `ext_data_` slot,
whether a `ClassExt` allocation would succeed, the identity the next
allocation would get, and the fields feeding the allocation fast path. -/
structure ClassState where
  status : Status
  isTemp : Bool
  lockOwnedBySelf : Bool
  extData : Option ClassExtM
  extAllocOk : Bool
  nextExtId : Nat
  isVariableSize : Bool
  isFinalizable : Bool
  objectSize : Nat
  objectSizeAllocFastPath : Nat
deriving DecidableEq, Repr

/-- The initial sentinel of `object_size_alloc_fast_path_`
(`std::numeric_limits<uint32_t>::max()`). -/
def uint32Max : Nat := 4294967295

/-- Alignment constant `kObjectAlignment` used by the allocation fast path. -/
def kObjectAlignment : Nat := 8

/-- The source's `RoundUp(x, kObjectAlignment)`. -/
def roundUpObjectAlignment (x : Nat) : Nat :=
  ((x + kObjectAlignment - 1) / kObjectAlignment) * kObjectAlignment

/-- `Class::EnsureExtDataPresent`: returns `(result, new slot contents, new
pending exception)` given the slot contents observed at entry, the slot
contents another thread may have installed before our compare-and-swap
(`interference`, `none` when no other thread raced), whether the `ClassExt`
allocation succeeds, the caller's pending exception, and the identity a
fresh allocation would receive.  A non-empty slot is returned unchanged;
otherwise the pending exception is remembered and cleared, a fresh record is
allocated, and a single CAS from empty installs it; a CAS loser discards the
fresh record and returns the winner's; the remembered exception is restored
before every successful return; a failed allocation returns `none` leaving
an OOM condition pending. -/
def EnsureExtDataPresent (slot interference : Option ClassExtM) (allocOk : Bool)
    (pending : Option ThrowableM) (freshId : Nat) :
    Option ClassExtM × Option ClassExtM × Option ThrowableM :=
  match slot with
  | some existing => (some existing, some existing, pending)
  | none =>
    if allocOk then
      match interference with
      | none => (some ⟨freshId, none⟩, some ⟨freshId, none⟩, pending)
      | some winner => (some winner, some winner, pending)
    else
      (none, none, some ThrowableM.oom)

/-- Erroneous-transition section of `Class::SetStatus` (the
`IsErroneous(new_status)` block): `none` models a fatal check failure;
otherwise the updated class state (with the captured failure written into
the extension data) and pending exception are returned. -/
def SetStatusErroneousPart (c : ClassState) (pending : Option ThrowableM)
    (ns : Status) : Option (ClassState × Option ThrowableM) :=
  if IsErroneousStatus ns = true then
    if IsErroneousStatus c.status = true then none
    else if ¬((ns = Status.errorResolved) ↔ statusLe Status.resolved c.status = true) then none
    else
      match EnsureExtDataPresent c.extData none c.extAllocOk pending c.nextExtId with
      | (some ext, _, p1) =>
        match p1 with
        | none => none
        | some e => some ({ c with extData := some ⟨ext.id, some e⟩ }, some e)
      | (none, slot1, p1) =>
        match p1 with
        | some ThrowableM.oom => some ({ c with extData := slot1 }, p1)
        | _ => none
  else some (c, pending)

/-- Allocation-fast-path section of `Class::SetStatus` (run after the status
write): `none` models the debug check that the cached size is still unset. -/
def SetStatusFastPathPart (c : ClassState) (ns : Status) : Option ClassState :=
  if ns = Status.initialized ∧ c.isVariableSize = false then
    if ¬(c.objectSizeAllocFastPath = uint32Max) then none
    else if c.isFinalizable = false then
      some { c with objectSizeAllocFastPath := roundUpObjectAlignment c.objectSize }
    else some c
  else some c

/-- Result of a `SetStatus` call: either a fatal check/log failure, or the
updated class state, updated pending exception, and whether the waiters on
the class monitor were notified. -/
inductive SetStatusResult where
  | fatal
  | ok (c : ClassState) (pending : Option ThrowableM) (notified : Bool)
deriving DecidableEq, Repr

/-- Waiter-notification section of `Class::SetStatus`; `oldStatus` and
`isTemp` are read from the pre-transition state. -/
def SetStatusNotifyPart (linkerInit : Bool) (oldStatus : Status) (isTemp : Bool)
    (c : ClassState) (p : Option ThrowableM) (ns : Status) : SetStatusResult :=
  if linkerInit = false then SetStatusResult.ok c p false
  else if isTemp = true then
    if ¬(statusLt ns Status.resolved = true) then SetStatusResult.fatal
    else SetStatusResult.ok c p (ns == Status.retired || ns == Status.errorUnresolved)
  else
    if ns = Status.retired then SetStatusResult.fatal
    else SetStatusResult.ok c p
      (statusLe Status.resolved oldStatus || statusLe Status.resolved ns)

/-- `Class::SetStatus(h_this, new_status, self)`: `linkerInit` is whether the
class linker exists and is initialized, `c` the state of the class at entry,
`pending` the calling thread's pending exception, `ns` the requested status. -/
def SetStatus (linkerInit : Bool) (c : ClassState) (pending : Option ThrowableM)
    (ns : Status) : SetStatusResult :=
  if linkerInit = true ∧ statusLe ns c.status = true ∧
      ¬(ns = Status.errorUnresolved ∨ ns = Status.errorResolved ∨ ns = Status.retired) then
    SetStatusResult.fatal
  else if linkerInit = true ∧
      (statusLe Status.resolved ns = true ∨ statusLe Status.resolved c.status = true) ∧
      ¬(c.lockOwnedBySelf = true) then
    SetStatusResult.fatal
  else
    match SetStatusErroneousPart c pending ns with
    | none => SetStatusResult.fatal
    | some (c1, p1) =>
      match SetStatusFastPathPart { c1 with status := ns } ns with
      | none => SetStatusResult.fatal
      | some c3 => SetStatusNotifyPart linkerInit c.status c.isTemp c3 p1 ns

/-- Sequential run of several `EnsureExtDataPresent` callers against one
shared slot (each caller's CAS is atomic, so the race serializes): returns
each caller's result and the final slot contents. -/
def RunExtInstallers : List Nat → Option ClassExtM → Option ThrowableM →
    List (Option ClassExtM) × Option ClassExtM
  | [], slot, _ => ([], slot)
  | fid :: rest, slot, pending =>
    match EnsureExtDataPresent slot none true pending fid with
    | (res, slot1, p1) =>
      match RunExtInstallers rest slot1 p1 with
      | (results, finalSlot) => (res :: results, finalSlot)

/-- `Class::SetClassSize(new_class_size)`: in a debug build a shrinking call
is fatal (`none`); otherwise the stored size becomes the new size. -/
def SetClassSize (debugBuild : Bool) (currentSize newSize : Nat) : Option Nat :=
  if debugBuild = true ∧ newSize < currentSize then none else some newSize

/-- Iterated `SetClassSize` calls over the lifetime of one instance, threading
the stored size; a fatal call aborts the run. -/
def RunSetClassSizes (debugBuild : Bool) : List Nat → Nat → Option Nat
  | [], cur => some cur
  | s :: rest, cur =>
    match SetClassSize debugBuild cur s with
    | none => none
    | some v => RunSetClassSizes debugBuild rest v

/-- Comparison of two characters, `memcmp` style. -/
def charCmp (a b : Char) : Ordering :=
  if a < b then Ordering.lt else if b < a then Ordering.gt else Ordering.eq

/-- Lexicographic comparison of two character lists, the behaviour of
`StringPiece::Compare`. -/
def lexCmp : List Char → List Char → Ordering
  | [], [] => Ordering.eq
  | [], _ :: _ => Ordering.lt
  | _ :: _, [] => Ordering.gt
  | a :: as, b :: bs =>
    match charCmp a b with
    | Ordering.eq => lexCmp as bs
    | o => o

/-- `StringPiece::Compare` on whole strings. -/
def strCmp (a b : String) : Ordering := lexCmp a.data b.data

/-- One field record (`ArtField`): name, type descriptor, and the dex index
standing in for the record's identity. -/
structure ArtField where
  name : String
  typeDescriptor : String
  dexFieldIndex : Nat
deriving DecidableEq, Repr

/-- Placeholder record used for out-of-range accesses (never reached when the
indices stay inside the table). -/
def defaultArtField : ArtField := ⟨"", "", 0⟩

/-- Comparison key of `FindFieldByNameAndType`: the field's name against the
queried name, then the field's type descriptor against the queried type. -/
def fieldKeyCmp (f : ArtField) (n t : String) : Ordering :=
  match strCmp f.name n with
  | Ordering.eq => strCmp f.typeDescriptor t
  | o => o

/-- Strict (name, then type-descriptor) order between two field records; the
sortedness invariant of a declared-field table is `List.Pairwise fieldRecLt`. -/
def fieldRecLt (a b : ArtField) : Prop :=
  fieldKeyCmp a b.name b.typeDescriptor = Ordering.lt

instance (a b : ArtField) : Decidable (fieldRecLt a b) := by
  unfold fieldRecLt; infer_instance

/-- Loop of the custom binary search in `FindFieldByNameAndType`: `low`/`high`
bracket the live part of the table. -/
def FindFieldBinarySearchLoop (fields : List ArtField) (n t : String)
    (low high : Nat) : Option ArtField :=
  if _h : low < high then
    match fieldKeyCmp (fields.getD ((low + high) / 2) defaultArtField) n t with
    | Ordering.lt => FindFieldBinarySearchLoop fields n t ((low + high) / 2 + 1) high
    | Ordering.gt => FindFieldBinarySearchLoop fields n t low ((low + high) / 2)
    | Ordering.eq => some (fields.getD ((low + high) / 2) defaultArtField)
  else none
termination_by high - low
decreasing_by
  · omega
  · omega

/-- `FindFieldByNameAndType(fields, name, type)`: binary search over the
pre-sorted field table (an absent table behaves as an empty one). -/
def FindFieldByNameAndType (fields : List ArtField) (n t : String) : Option ArtField :=
  FindFieldBinarySearchLoop fields n t 0 fields.length

/-- The debug build's exhaustive cross-check: a linear scan for the first
field whose name and type descriptor equal the query. -/
def FindFieldLinearScan (fields : List ArtField) (n t : String) : Option ArtField :=
  fields.find? (fun f => n == f.name && t == f.typeDescriptor)

/-- One node of the class graph used by static-field resolution: declared
static fields, the superclass, and the direct interfaces.  A node embeds its
interfaces and superclass structurally, which preserves the algorithm's
traversal order. -/
inductive ClassNode where
  | mk (sFields : List ArtField) (superClass : Option ClassNode)
       (interfaces : List ClassNode)

/-- Declared static fields of a node. -/
def ClassNode.sFields : ClassNode → List ArtField
  | .mk sf _ _ => sf

mutual
/-- `Class::FindStaticField(self, klass, name, type)`: walk the superclass
chain; at each level check the declared static fields
(`FindDeclaredStaticField`, a `FindFieldByNameAndType` call on the
static-field table), then recursively search each direct interface in order
via `FindStaticFieldInInterfaces`. -/
def FindStaticField (k : ClassNode) (n t : String) : Option ArtField :=
  match k with
  | .mk sf sup ifaces =>
    match FindFieldByNameAndType sf n t with
    | some f => some f
    | none =>
      match FindStaticFieldInInterfaces ifaces n t with
      | some f => some f
      | none =>
        match sup with
        | some s => FindStaticField s n t
        | none => none

/-- Inner loop of `FindStaticField` over a level's direct interfaces. -/
def FindStaticFieldInInterfaces (l : List ClassNode) (n t : String) : Option ArtField :=
  match l with
  | [] => none
  | i :: rest =>
    match FindStaticField i n t with
    | some f => some f
    | none => FindStaticFieldInInterfaces rest n t
end

mutual
/-- Specification-side search order for static-field resolution, written from
the claim's words: the queried type first, then, before advancing to the
superclass, every direct interface expanded recursively (each interface again
contributing itself, its interfaces, and its superclass chain, in order). -/
def StaticSearchOrder (k : ClassNode) : List ClassNode :=
  match k with
  | .mk sf sup ifaces =>
    ClassNode.mk sf sup ifaces ::
      (StaticSearchOrderList ifaces ++
        (match sup with
         | some s => StaticSearchOrder s
         | none => []))

/-- Search order contributed by a list of direct interfaces. -/
def StaticSearchOrderList (l : List ClassNode) : List ClassNode :=
  match l with
  | [] => []
  | i :: rest => StaticSearchOrder i ++ StaticSearchOrderList rest
end

/-- One method record (`ArtMethod`) as seen by interface-super resolution:
name, signature, whether the method is a default method (has a body), and
the identity of its declaring class. -/
structure MethodRec where
  name : String
  signature : String
  isDefault : Bool
  declaringClass : Nat
deriving DecidableEq, Repr

/-- `ArtMethod::HasSameNameAndSignature`. -/
def HasSameNameAndSignature (a b : MethodRec) : Bool :=
  a.name == b.name && a.signature == b.signature

/-- One interface entry of an `IfTable`: its class identity and its declared
virtual methods. -/
structure IfaceRec where
  classId : Nat
  declaredVirtualMethods : List MethodRec
deriving DecidableEq, Repr

/-- The receiver of `FindVirtualMethodForInterfaceSuper`: whether it is an
interface (`IsInterface()`), its own virtual methods (declared and copied),
and its interface table. -/
structure IfaceClass where
  isInterfaceFlag : Bool
  virtualMethods : List MethodRec
  ifTable : List IfaceRec
deriving DecidableEq, Repr

/-- Inner loop of `FindVirtualMethodForInterfaceSuper` over one interface's
declared virtual methods: `assignable i d` is the oracle for
`interface i IsAssignableFrom(declaring class d)`.  A matching default method
is returned unless an already-collected abstract candidate declares on a
subtype of the current interface; a matching abstract method is appended to
the candidates and the scan continues. -/
def ScanIfaceDeclaredMethods (assignable : Nat → Nat → Bool) (ifaceId : Nat)
    (query : MethodRec) :
    List MethodRec → List MethodRec → Sum MethodRec (List MethodRec)
  | [], abstracts => Sum.inr abstracts
  | m :: rest, abstracts =>
    if HasSameNameAndSignature m query = true then
      if m.isDefault = true then
        if abstracts.any (fun p => assignable ifaceId p.declaringClass) then
          ScanIfaceDeclaredMethods assignable ifaceId query rest abstracts
        else Sum.inl m
      else ScanIfaceDeclaredMethods assignable ifaceId query rest (abstracts ++ [m])
    else ScanIfaceDeclaredMethods assignable ifaceId query rest abstracts

/-- Outer loop of `FindVirtualMethodForInterfaceSuper` over the interface
table, indexed from `count` exclusive down to `0`, threading the collected
abstract candidates; when the scan exhausts, the first collected candidate
(if any) is the result. -/
def ScanIfTableReverse (assignable : Nat → Nat → Bool) (ifTable : List IfaceRec)
    (query : MethodRec) : Nat → List MethodRec → Option MethodRec
  | 0, abstracts => abstracts.head?
  | k + 1, abstracts =>
    match ScanIfaceDeclaredMethods assignable (ifTable.getD k ⟨0, []⟩).classId query
        (ifTable.getD k ⟨0, []⟩).declaredVirtualMethods abstracts with
    | Sum.inl m => some m
    | Sum.inr abstracts2 => ScanIfTableReverse assignable ifTable query k abstracts2

/-- `Class::FindVirtualMethodForInterfaceSuper(method, pointer_size)`: check
the receiver's own virtual methods first, then scan the interface table from
index `count - 1` down to `0`. -/
def FindVirtualMethodForInterfaceSuper (assignable : Nat → Nat → Bool)
    (c : IfaceClass) (query : MethodRec) : Option MethodRec :=
  match c.virtualMethods.find? (fun vm => HasSameNameAndSignature query vm) with
  | some m => some m
  | none => ScanIfTableReverse assignable c.ifTable query c.ifTable.length []

/-- Specification-side outer scan, written from the claim's words: visit the
interfaces as a list in reverse table order. -/
def SpecScanIfacesInOrder (assignable : Nat → Nat → Bool) (query : MethodRec) :
    List IfaceRec → List MethodRec → Option MethodRec
  | [], abstracts => abstracts.head?
  | iface :: rest, abstracts =>
    match ScanIfaceDeclaredMethods assignable iface.classId query
        iface.declaredVirtualMethods abstracts with
    | Sum.inl m => some m
    | Sum.inr abstracts2 => SpecScanIfacesInOrder assignable query rest abstracts2

/-- Specification-side form of interface-super resolution, following the
claim: first the type's own declared virtual methods, otherwise the interface
table scanned in reverse order as a list, otherwise the first collected
abstract candidate. -/
def FindVirtualMethodForInterfaceSuperSpec (assignable : Nat → Nat → Bool)
    (c : IfaceClass) (query : MethodRec) : Option MethodRec :=
  match c.virtualMethods.find? (fun vm => HasSameNameAndSignature query vm) with
  | some m => some m
  | none => SpecScanIfacesInOrder assignable query c.ifTable.reverse []

/-- Entry of `FindVirtualMethodForInterfaceSuper` with its two debug-build
preconditions (`DCHECK(method->GetDeclaringClass()->IsInterface())` and
`DCHECK(IsInterface())`): `none` models an assertion failure,
`isInterfaceOf i` tells whether the class with identity `i` is an interface. -/
def FindVirtualMethodForInterfaceSuperChecked (assignable : Nat → Nat → Bool)
    (isInterfaceOf : Nat → Bool) (c : IfaceClass) (query : MethodRec) :
    Option (Option MethodRec) :=
  if isInterfaceOf query.declaringClass && c.isInterfaceFlag then
    some (FindVirtualMethodForInterfaceSuper assignable c query)
  else none

/-- A class as seen by package-membership: either a non-array class with its
loader identity and descriptor, or an array class with its loader identity
and component type. -/
inductive JClass where
  | scalar (loader : Nat) (descriptor : String)
  | array (loader : Nat) (componentType : JClass)
deriving DecidableEq, Repr

/-- `Class::GetDescriptor`: array descriptors prefix `[` to the component's. -/
def GetDescriptor : JClass → String
  | .scalar _ d => d
  | .array _ c => "[" ++ GetDescriptor c

/-- `Class::GetClassLoader` identity. -/
def GetClassLoader : JClass → Nat
  | .scalar l _ => l
  | .array l _ => l

/-- The `while (klass->IsArrayClass()) klass = klass->GetComponentType();`
loops of `IsInSamePackage`: the innermost non-array element type. -/
def elementType : JClass → JClass
  | .scalar l d => JClass.scalar l d
  | .array _ c => elementType c

/-- Length of the common prefix of two character lists (the first loop of the
descriptor overload of `IsInSamePackage`). -/
def commonPrefixLength : List Char → List Char → Nat
  | a :: as, b :: bs => if a = b then commonPrefixLength as bs + 1 else 0
  | _, _ => 0

/-- Whether a character list contains a `/` (the `find('/', i) != npos` test
applied to the dropped suffix). -/
def hasSlash : List Char → Bool
  | [] => false
  | c :: rest => c == '/' || hasSlash rest

/-- Descriptor overload of `Class::IsInSamePackage`: skip the common prefix,
then the descriptors are in the same package exactly when neither has a `/`
at or after the first difference. -/
def IsInSamePackageDescriptors (d1 d2 : String) : Bool :=
  !(hasSlash (d1.data.drop (commonPrefixLength d1.data d2.data)) ||
    hasSlash (d2.data.drop (commonPrefixLength d1.data d2.data)))

/-- `Class::IsInSamePackage(that)`: identical classes short-circuit, loaders
must match, arrays recurse to their element classes, and finally the
descriptors are compared. -/
def IsInSamePackage (k1 k2 : JClass) : Bool :=
  if k1 = k2 then true
  else if GetClassLoader k1 ≠ GetClassLoader k2 then false
  else if elementType k1 = elementType k2 then true
  else IsInSamePackageDescriptors (GetDescriptor (elementType k1))
    (GetDescriptor (elementType k2))

/-- The characters of a descriptor up to and including its last `/`; empty
when the descriptor has no `/`.  This is the "package prefix" the claims
compare. -/
def upToLastSlash : List Char → List Char
  | [] => []
  | c :: rest =>
    if hasSlash rest then c :: upToLastSlash rest
    else if c = '/' then [c] else []

/-- Package prefix of a descriptor string. -/
def packagePart (d : String) : List Char := upToLastSlash d.data

/-! Helper lemmas. -/

/-- Once the slot is filled, every further installer observes the same record
and leaves the slot unchanged. -/
theorem runExtInstallers_filled (ids : List Nat) (w : ClassExtM) (p : Option ThrowableM) :
    RunExtInstallers ids (some w) p = (ids.map (fun _ => some w), some w) := by
  induction ids generalizing p with
  | nil => rfl
  | cons fid rest ih => simp [RunExtInstallers, EnsureExtDataPresent, ih]

/-- A status is erroneous exactly when it is one of the two error values. -/
theorem isErroneous_cases {s : Status} (h : IsErroneousStatus s = true) :
    s = Status.errorUnresolved ∨ s = Status.errorResolved := by
  cases s <;> simp_all [IsErroneousStatus]

/-- Erroneous statuses sit below `Resolved` in the enum order. -/
theorem statusLe_resolved_of_erroneous {s : Status} (h : IsErroneousStatus s = true) :
    statusLe Status.resolved s = false := by
  rcases isErroneous_cases h with rfl | rfl <;> decide

/-- The notification stage never changes the class state or the pending
exception it is handed. -/
theorem setStatusNotifyPart_ok {li : Bool} {old : Status} {temp : Bool}
    {c : ClassState} {p : Option ThrowableM} {ns : Status} {c' : ClassState}
    {p' : Option ThrowableM} {nt : Bool}
    (h : SetStatusNotifyPart li old temp c p ns = SetStatusResult.ok c' p' nt) :
    c' = c ∧ p' = p := by
  unfold SetStatusNotifyPart at h
  split_ifs at h <;>
    exact ⟨(SetStatusResult.ok.inj h).1.symm, (SetStatusResult.ok.inj h).2.1.symm⟩

/-! Claim theorems. -/

/-- Claim C10: the stored class size never decreases: every `SetClassSize`
call with a smaller size is fatal in debug builds, a successful call stores
a size no smaller than the current one, and over any sequence of successful
calls the stored size is monotonically non-decreasing. -/
theorem claim_C10_class_size_monotonic :
    (∀ cur newSize, newSize < cur → SetClassSize true cur newSize = none)
  ∧ (∀ cur newSize v, SetClassSize true cur newSize = some v → cur ≤ v ∧ v = newSize)
  ∧ (∀ sizes cur fin, RunSetClassSizes true sizes cur = some fin → cur ≤ fin) := by
  have step : ∀ cur n v, SetClassSize true cur n = some v → cur ≤ v ∧ v = n := by
    intro cur n v h
    unfold SetClassSize at h
    split at h
    · exact absurd h (by simp)
    · rename_i hc
      have hvn : n = v := Option.some_inj.mp h
      subst hvn
      exact ⟨le_of_not_lt fun hlt => hc ⟨rfl, hlt⟩, rfl⟩
  refine ⟨fun cur n h => by simp [SetClassSize, h], step, fun sizes => ?_⟩
  induction sizes with
  | nil =>
    intro cur fin h
    simp only [RunSetClassSizes] at h
    exact le_of_eq (Option.some_inj.mp h)
  | cons s rest ih =>
    intro cur fin h
    simp only [RunSetClassSizes] at h
    split at h
    · exact absurd h (by simp)
    · rename_i v hv
      exact le_trans (step cur s v hv).1 (ih v fin h)

/-- Claim C10 witness: concrete fatal shrink, concrete successful grow, and a
concrete three-call lifetime. -/
theorem claim_C10_witness :
    SetClassSize true 10 5 = none ∧ ((10:Nat) ≤ 12 ∧ (12:Nat) = 12) ∧ (8:Nat) ≤ 12 :=
  ⟨claim_C10_class_size_monotonic.1 10 5 (by decide),
   claim_C10_class_size_monotonic.2.1 10 12 12 (by decide),
   claim_C10_class_size_monotonic.2.2 [9, 10, 12] 8 12 (by decide)⟩

/-- Claim C7: a non-empty `ext_data_` slot is returned unchanged; a CAS loser
discards its fresh record and returns the winner's; a failed allocation
returns `none` with an out-of-memory condition pending; a successful install
writes the fresh record with the remembered pending exception restored; and
running any number of installers against one initially empty slot leaves
exactly the first installer's record installed, with every caller observing
that same record. -/
theorem claim_C7_ext_data_install :
    (∀ e interf allocOk p fid,
      EnsureExtDataPresent (some e) interf allocOk p fid = (some e, some e, p))
  ∧ (∀ w p fid, EnsureExtDataPresent none (some w) true p fid = (some w, some w, p))
  ∧ (∀ interf p fid,
      EnsureExtDataPresent none interf false p fid = (none, none, some ThrowableM.oom))
  ∧ (∀ p fid,
      EnsureExtDataPresent none none true p fid = (some ⟨fid, none⟩, some ⟨fid, none⟩, p))
  ∧ (∀ fid rest p,
      (RunExtInstallers (fid :: rest) none p).2 = some ⟨fid, none⟩
      ∧ ∀ r ∈ (RunExtInstallers (fid :: rest) none p).1, r = some ⟨fid, none⟩) := by
  refine ⟨fun e interf allocOk p fid => rfl,
          fun w p fid => rfl,
          fun interf p fid => by cases interf <;> rfl,
          fun p fid => rfl,
          fun fid rest p => ?_⟩
  have hrun : RunExtInstallers (fid :: rest) none p =
      (some ⟨fid, none⟩ :: rest.map (fun _ => some ⟨fid, none⟩), some ⟨fid, none⟩) := by
    simp [RunExtInstallers, EnsureExtDataPresent, runExtInstallers_filled]
  rw [hrun]
  constructor
  · rfl
  · intro r hr
    rcases List.mem_cons.mp hr with h | h
    · exact h
    · rcases List.mem_map.mp h with ⟨_, _, h2⟩
      exact h2.symm

/-- Claim C7 witness: a caller against a pre-filled slot, and two racing
installers against an empty slot observing the first record. -/
theorem claim_C7_witness :
    EnsureExtDataPresent (some ⟨3, some ThrowableM.oom⟩) (some ⟨4, none⟩) false
        (some (ThrowableM.exc 2)) 9 =
      (some ⟨3, some ThrowableM.oom⟩, some ⟨3, some ThrowableM.oom⟩, some (ThrowableM.exc 2))
  ∧ (some (⟨1, none⟩ : ClassExtM) : Option ClassExtM) = some ⟨1, none⟩ :=
  ⟨claim_C7_ext_data_install.1 ⟨3, some ThrowableM.oom⟩ (some ⟨4, none⟩) false
      (some (ThrowableM.exc 2)) 9,
   (claim_C7_ext_data_install.2.2.2.2 1 [2] none).2 (some ⟨1, none⟩) (by decide)⟩

/-- Claim C9: entry to `FindVirtualMethodForInterfaceSuper` asserts, in debug
builds, that the receiver is an interface and that the query method's
declaring class is an interface; when the assertions pass, the checked entry
computes exactly the unchecked resolution result. -/
theorem claim_C9_interface_super_preconditions :
    ∀ (assignable : Nat → Nat → Bool) (isInterfaceOf : Nat → Bool)
      (c : IfaceClass) (q : MethodRec),
      ((FindVirtualMethodForInterfaceSuperChecked assignable isInterfaceOf c q).isSome =
        (isInterfaceOf q.declaringClass && c.isInterfaceFlag))
    ∧ (∀ r, FindVirtualMethodForInterfaceSuperChecked assignable isInterfaceOf c q = some r →
        r = FindVirtualMethodForInterfaceSuper assignable c q) := by
  intro assignable isInterfaceOf c q
  constructor
  · unfold FindVirtualMethodForInterfaceSuperChecked
    split
    · rename_i hcond
      simp [hcond]
    · rename_i hcond
      simp only [Option.isSome_none]
      exact (Bool.eq_false_iff.mpr hcond).symm
  · intro r hr
    unfold FindVirtualMethodForInterfaceSuperChecked at hr
    split at hr
    · exact (Option.some_inj.mp hr).symm
    · exact absurd hr (by simp)

/-- Computation rule of `ClassNode.sFields` on a constructor. -/
theorem ClassNode.sFields_mk (sf : List ArtField) (sup : Option ClassNode)
    (ifs : List ClassNode) : (ClassNode.mk sf sup ifs).sFields = sf := rfl

/-- One-step unfolding of `FindStaticField`. -/
theorem FindStaticField_mk (sf : List ArtField) (sup : Option ClassNode)
    (ifaces : List ClassNode) (n t : String) :
    FindStaticField (ClassNode.mk sf sup ifaces) n t =
      match FindFieldByNameAndType sf n t with
      | some f => some f
      | none =>
        match FindStaticFieldInInterfaces ifaces n t with
        | some f => some f
        | none =>
          match sup with
          | some s => FindStaticField s n t
          | none => none := by
  cases sup with
  | some s => rw [FindStaticField.eq_1]
  | none => rw [FindStaticField.eq_2]

/-- One-step unfolding of `StaticSearchOrder`. -/
theorem StaticSearchOrder_mk (sf : List ArtField) (sup : Option ClassNode)
    (ifaces : List ClassNode) :
    StaticSearchOrder (ClassNode.mk sf sup ifaces) =
      ClassNode.mk sf sup ifaces ::
        (StaticSearchOrderList ifaces ++
          (match sup with
           | some s => StaticSearchOrder s
           | none => [])) := by
  cases sup with
  | some s => rw [StaticSearchOrder.eq_1]
  | none => rw [StaticSearchOrder.eq_2]

/-- Claim C5: static-field resolution walks the superclass chain starting at
the queried type; at each level it first checks that level's declared static
fields and then recursively searches each direct interface (and transitively
its superinterfaces and superclasses) in order, returning the first field
found in this order — i.e. the source function equals the first declared
match along the specification-side `StaticSearchOrder` traversal. -/
theorem claim_C5_static_field_resolution :
    ∀ (k : ClassNode) (n t : String),
      FindStaticField k n t =
        (StaticSearchOrder k).findSome? (fun c => FindFieldByNameAndType c.sFields n t) := by
  refine FindStaticField.induct
    (fun k n t => FindStaticField k n t =
      (StaticSearchOrder k).findSome? (fun c => FindFieldByNameAndType c.sFields n t))
    (fun l n t => FindStaticFieldInInterfaces l n t =
      (StaticSearchOrderList l).findSome? (fun c => FindFieldByNameAndType c.sFields n t))
    ?_ ?_ ?_ ?_ ?_ ?_ ?_
  · intro n t sf sup ifaces f hf
    rw [FindStaticField_mk, StaticSearchOrder_mk, List.findSome?_cons]
    simp [ClassNode.sFields_mk, hf]
  · intro n t sf sup ifaces hnone f hif ih
    have hlist : (StaticSearchOrderList ifaces).findSome?
        (fun c => FindFieldByNameAndType c.sFields n t) = some f := by
      rw [← ih]; exact hif
    rw [FindStaticField_mk, StaticSearchOrder_mk, List.findSome?_cons]
    simp [ClassNode.sFields_mk, hnone, hif, hlist, List.findSome?_append, Option.or]
  · intro n t sf ifaces hnone1 hnone2 s ih2 ih1
    have hlist : (StaticSearchOrderList ifaces).findSome?
        (fun c => FindFieldByNameAndType c.sFields n t) = none := by
      rw [← ih2]; exact hnone2
    rw [FindStaticField_mk, StaticSearchOrder_mk, List.findSome?_cons]
    simp [ClassNode.sFields_mk, hnone1, hnone2, hlist, ih1, List.findSome?_append, Option.or]
  · intro n t sf ifaces hnone1 hnone2 ih2
    have hlist : (StaticSearchOrderList ifaces).findSome?
        (fun c => FindFieldByNameAndType c.sFields n t) = none := by
      rw [← ih2]; exact hnone2
    rw [FindStaticField_mk, StaticSearchOrder_mk, List.findSome?_cons]
    simp [ClassNode.sFields_mk, hnone1, hnone2, hlist, List.findSome?_append, Option.or]
  · intro n t
    rw [FindStaticFieldInInterfaces.eq_1, StaticSearchOrderList.eq_1]
    rfl
  · intro n t i rest f hi ih1
    have h1 : (StaticSearchOrder i).findSome?
        (fun c => FindFieldByNameAndType c.sFields n t) = some f := by
      rw [← ih1]; exact hi
    rw [FindStaticFieldInInterfaces.eq_2, StaticSearchOrderList.eq_2]
    simp [hi, h1, List.findSome?_append, Option.or]
  · intro n t i rest hi ih1 ih2
    have h1 : (StaticSearchOrder i).findSome?
        (fun c => FindFieldByNameAndType c.sFields n t) = none := by
      rw [← ih1]; exact hi
    rw [FindStaticFieldInInterfaces.eq_2, StaticSearchOrderList.eq_2]
    simp [hi, h1, ih2, List.findSome?_append, Option.or]


/-- The downward-indexed interface-table scan visits exactly the reversed
prefix of the table. -/
theorem scanIfTableReverse_eq_specScan (assignable : Nat → Nat → Bool)
    (ifTable : List IfaceRec) (query : MethodRec) :
    ∀ (k : Nat), k ≤ ifTable.length → ∀ (abstracts : List MethodRec),
      ScanIfTableReverse assignable ifTable query k abstracts =
        SpecScanIfacesInOrder assignable query (ifTable.take k).reverse abstracts := by
  intro k
  induction k with
  | zero => intro _ abstracts; rfl
  | succ k ih =>
    intro hk abstracts
    have hklt : k < ifTable.length := Nat.lt_of_succ_le hk
    have htake : (ifTable.take (k + 1)).reverse = ifTable[k] :: (ifTable.take k).reverse := by
      rw [List.take_succ, List.getElem?_eq_getElem hklt]
      simp
    rw [htake]
    simp only [ScanIfTableReverse, SpecScanIfacesInOrder]
    rw [List.getD_eq_getElem ifTable ⟨0, []⟩ hklt]
    cases hscan : ScanIfaceDeclaredMethods assignable (ifTable[k]).classId query
        (ifTable[k]).declaredVirtualMethods abstracts with
    | inl m => simp [hscan]
    | inr ab2 =>
      simp only [hscan]
      exact ih (le_of_lt hklt) ab2

/-- Claim C1: `FindVirtualMethodForInterfaceSuper` returns the first of the
type's own virtual methods with the query's name and signature if any;
otherwise it scans the interface table from index `count - 1` down to `0`,
within each interface scanning its declared virtual methods, returning the
first matching default method that is not overridden (overridden exactly
when an already-collected abstract candidate's declaring interface is a
subtype of the current interface; abstract matches are collected and the
scan continues); if the scan exhausts, the first abstract candidate
collected, or none if there were no candidates — i.e. the source function
coincides with the specification-side reverse-order description. -/
theorem claim_C1_interface_super_resolution :
    ∀ (assignable : Nat → Nat → Bool) (c : IfaceClass) (query : MethodRec),
      FindVirtualMethodForInterfaceSuper assignable c query =
        FindVirtualMethodForInterfaceSuperSpec assignable c query := by
  intro a c q
  unfold FindVirtualMethodForInterfaceSuper FindVirtualMethodForInterfaceSuperSpec
  cases c.virtualMethods.find? (fun vm => HasSameNameAndSignature q vm) with
  | some m => rfl
  | none =>
    have h := scanIfTableReverse_eq_specScan a c.ifTable q c.ifTable.length le_rfl []
    rw [List.take_length] at h
    simpa using h

/-- Claim C2 (amended): when the class linker is initialized, any `SetStatus`
transition that is not strictly forward and is not into `Retired`,
`ErrorUnresolved` or `ErrorResolved` is rejected as fatal, and consequently
any non-fatal transition either strictly increases the status or enters one
of those three states; when the class linker is not yet initialized the
regression check is skipped. -/
theorem claim_C2_status_monotonic :
    ∀ (c : ClassState) (p : Option ThrowableM) (ns : Status),
      ((statusLe ns c.status = true ∧
          ¬(ns = Status.errorUnresolved ∨ ns = Status.errorResolved ∨ ns = Status.retired)) →
        SetStatus true c p ns = SetStatusResult.fatal)
    ∧ (∀ c' p' nt, SetStatus true c p ns = SetStatusResult.ok c' p' nt →
        statusLe ns c.status = false ∨ ns = Status.errorUnresolved ∨
          ns = Status.errorResolved ∨ ns = Status.retired) := by
  intro c p ns
  constructor
  · rintro ⟨h1, h2⟩
    unfold SetStatus
    rw [if_pos ⟨rfl, h1, h2⟩]
  · intro c' p' nt h
    by_cases h1 : statusLe ns c.status = true
    · by_cases h2 : ns = Status.errorUnresolved ∨ ns = Status.errorResolved ∨ ns = Status.retired
      · exact Or.inr h2
      · exfalso
        unfold SetStatus at h
        rw [if_pos ⟨rfl, h1, h2⟩] at h
        exact SetStatusResult.noConfusion h
    · exact Or.inl (by simpa using h1)

/-- Claim C2 counterexample: with the class linker not yet initialized, a
strict regression from `Initialized` to `Loaded` (not into an error state or
`Retired`) is carried out instead of being rejected as fatal. -/
theorem claim_C2_counterexample :
    statusLe Status.loaded Status.initialized = true
  ∧ ¬(Status.loaded = Status.errorUnresolved ∨ Status.loaded = Status.errorResolved ∨
      Status.loaded = Status.retired)
  ∧ SetStatus false
      ⟨Status.initialized, false, false, none, true, 0, false, false, 16, uint32Max⟩
      none Status.loaded ≠ SetStatusResult.fatal := by decide

/-- Claim C2 witness: a same-status transition below `Resolved` with the
linker initialized is rejected as fatal. -/
theorem claim_C2_witness :
    SetStatus true ⟨Status.loaded, false, false, none, true, 0, false, false, 16, uint32Max⟩
      none Status.loaded = SetStatusResult.fatal :=
  (claim_C2_status_monotonic
      ⟨Status.loaded, false, false, none, true, 0, false, false, 16, uint32Max⟩
      none Status.loaded).1 ⟨by decide, by decide⟩

/-- Claim C3 (amended): on a regular (non-temporary) instance with the class
linker initialized, `SetStatus` notifies all waiters exactly when the old or
the new status is at least `Resolved` (so transitions that stay at or above
`Resolved` on both ends also notify, not only boundary crossings); with the
linker uninitialized no notification happens. -/
theorem claim_C3_notify_condition :
    ∀ (c : ClassState) (p : Option ThrowableM) (ns : Status), c.isTemp = false →
      (∀ c' p' nt, SetStatus true c p ns = SetStatusResult.ok c' p' nt →
        nt = (statusLe Status.resolved c.status || statusLe Status.resolved ns))
    ∧ (∀ c' p' nt, SetStatus false c p ns = SetStatusResult.ok c' p' nt → nt = false) := by
  intro c p ns hreg
  constructor
  · intro c' p' nt h
    unfold SetStatus at h
    split_ifs at h
    split at h
    · exact absurd h (by simp)
    · split at h
      · exact absurd h (by simp)
      · unfold SetStatusNotifyPart at h
        rw [if_neg (by simp), if_neg (by simp [hreg])] at h
        split at h
        · exact absurd h (by simp)
        · exact ((SetStatusResult.ok.inj h).2.2).symm
  · intro c' p' nt h
    unfold SetStatus at h
    rw [if_neg (by rintro ⟨hfalse, -⟩; exact Bool.noConfusion hfalse),
        if_neg (by rintro ⟨hfalse, -⟩; exact Bool.noConfusion hfalse)] at h
    split at h
    · exact absurd h (by simp)
    · split at h
      · exact absurd h (by simp)
      · unfold SetStatusNotifyPart at h
        rw [if_pos rfl] at h
        exact ((SetStatusResult.ok.inj h).2.2).symm

/-- Claim C3 counterexample: the transition `Resolved → Verifying` on a
regular instance stays at or above `Resolved` on both ends (it does not
cross the `Resolved` boundary in either direction), yet all waiters are
notified. -/
theorem claim_C3_counterexample :
    SetStatus true ⟨Status.resolved, false, true, none, true, 0, false, false, 16, uint32Max⟩
        none Status.verifying =
      SetStatusResult.ok
        ⟨Status.verifying, false, true, none, true, 0, false, false, 16, uint32Max⟩ none true
  ∧ statusLe Status.resolved Status.resolved = true
  ∧ statusLe Status.resolved Status.verifying = true := by decide

/-- Claim C3 witness: a regular instance transitioning `Loaded → Resolving`
(both below `Resolved`) does not notify. -/
theorem claim_C3_witness :
    (false : Bool) = (statusLe Status.resolved
        ((⟨Status.loaded, false, false, none, true, 0, false, false, 16,
          uint32Max⟩ : ClassState)).status
      || statusLe Status.resolved Status.resolving) :=
  ((claim_C3_notify_condition
      ⟨Status.loaded, false, false, none, true, 0, false, false, 16, uint32Max⟩
      none Status.resolving (by decide)).1
    ⟨Status.resolving, false, false, none, true, 0, false, false, 16, uint32Max⟩
    none false (by decide))

/-- Claim C6: marking a type erroneous while it is already erroneous is
always fatal; a performed (non-fatal) erroring transition goes to
`ErrorResolved` exactly when the old status was at least `Resolved`; and a
performed erroring transition whose extension data is present or allocatable
captures the calling thread's pending failure into the extension data's
verify-error slot, with the pending failure restored on return. -/
theorem claim_C6_error_transition :
    (∀ li c p ns, IsErroneousStatus c.status = true → IsErroneousStatus ns = true →
      SetStatus li c p ns = SetStatusResult.fatal)
  ∧ (∀ li c p ns c' p' nt, SetStatus li c p ns = SetStatusResult.ok c' p' nt →
      IsErroneousStatus ns = true →
      ((ns = Status.errorResolved) ↔ statusLe Status.resolved c.status = true))
  ∧ (∀ li c p ns c' p' nt, SetStatus li c p ns = SetStatusResult.ok c' p' nt →
      IsErroneousStatus ns = true → (¬ c.extData = none ∨ c.extAllocOk = true) →
      ∃ e, p = some e ∧ p' = some e ∧
        ∃ ed, c'.extData = some ed ∧ ed.verifyError = some e) := by
  have herrPart : ∀ c p ns c1 p1, IsErroneousStatus ns = true →
      SetStatusErroneousPart c p ns = some (c1, p1) →
      ((ns = Status.errorResolved) ↔ statusLe Status.resolved c.status = true)
      ∧ ((¬ c.extData = none ∨ c.extAllocOk = true) →
          ∃ e, p = some e ∧ p1 = some e ∧
            ∃ ed, c1.extData = some ed ∧ ed.verifyError = some e) := by
    intro c p ns c1 p1 hns herr
    unfold SetStatusErroneousPart at herr
    rw [if_pos hns] at herr
    split_ifs at herr with hold hiff
    refine ⟨hiff, ?_⟩
    intro hdisj
    cases hslot : c.extData with
      | some e0 =>
        rw [hslot] at herr
        simp only [EnsureExtDataPresent] at herr
        cases hp : p with
        | none => rw [hp] at herr; exact absurd herr (by simp)
        | some e =>
          rw [hp] at herr
          have h1 := Prod.mk.inj (Option.some_inj.mp herr)
          refine ⟨e, rfl, h1.2.symm, ⟨e0.id, some e⟩, ?_, rfl⟩
          rw [← h1.1]
      | none =>
        cases hok : c.extAllocOk with
        | false =>
          rcases hdisj with hd | hd
          · exact absurd hslot hd
          · rw [hok] at hd; exact Bool.noConfusion hd
        | true =>
          rw [hslot, hok] at herr
          simp only [EnsureExtDataPresent] at herr
          cases hp : p with
          | none => rw [hp] at herr; exact absurd herr (by simp)
          | some e =>
            rw [hp] at herr
            have h1 := Prod.mk.inj (Option.some_inj.mp herr)
            refine ⟨e, rfl, h1.2.symm, ⟨c.nextExtId, some e⟩, ?_, rfl⟩
            rw [← h1.1]
  have htrace : ∀ li c p ns c' p' nt, SetStatus li c p ns = SetStatusResult.ok c' p' nt →
      IsErroneousStatus ns = true →
      ∃ c1 p1, SetStatusErroneousPart c p ns = some (c1, p1) ∧
        c'.extData = c1.extData ∧ p' = p1 := by
    intro li c p ns c' p' nt h hns
    unfold SetStatus at h
    split_ifs at h
    split at h
    · exact absurd h (by simp)
    · rename_i c1 p1 heq
      have hfp : SetStatusFastPathPart { c1 with status := ns } ns =
          some { c1 with status := ns } := by
        unfold SetStatusFastPathPart
        rw [if_neg]
        rintro ⟨h1, -⟩
        rcases isErroneous_cases hns with rfl | rfl <;> exact Status.noConfusion h1
      rw [hfp] at h
      obtain ⟨hc', hp'⟩ := setStatusNotifyPart_ok h
      exact ⟨c1, p1, heq, by rw [hc'], hp'⟩
  refine ⟨?_, ?_, ?_⟩
  · intro li c p ns hold hns
    unfold SetStatus
    rw [if_neg (by rintro ⟨-, -, h3⟩
                   rcases isErroneous_cases hns with rfl | rfl
                   · exact h3 (Or.inl rfl)
                   · exact h3 (Or.inr (Or.inl rfl))),
        if_neg (by rintro ⟨-, hd, -⟩
                   rcases hd with hd | hd
                   · rw [statusLe_resolved_of_erroneous hns] at hd
                     exact Bool.noConfusion hd
                   · rw [statusLe_resolved_of_erroneous hold] at hd
                     exact Bool.noConfusion hd)]
    have : SetStatusErroneousPart c p ns = none := by
      unfold SetStatusErroneousPart
      rw [if_pos hns, if_pos hold]
    rw [this]
  · intro li c p ns c' p' nt h hns
    obtain ⟨c1, p1, herr, -, -⟩ := htrace li c p ns c' p' nt h hns
    exact (herrPart c p ns c1 p1 hns herr).1
  · intro li c p ns c' p' nt h hns hdisj
    obtain ⟨c1, p1, herr, hext, hp'⟩ := htrace li c p ns c' p' nt h hns
    obtain ⟨e, hp, hp1, ed, hed, hve⟩ := (herrPart c p ns c1 p1 hns herr).2 hdisj
    exact ⟨e, hp, by rw [hp', hp1], ed, by rw [hext, hed], hve⟩

/-- Claim C6 witness: a concrete erroring transition from `Resolved` to
`ErrorResolved` captures the pending failure `exc 7` into the extension data
and leaves it pending on return. -/
theorem claim_C6_witness :
    ∃ e, (some (ThrowableM.exc 7) : Option ThrowableM) = some e
      ∧ (some (ThrowableM.exc 7) : Option ThrowableM) = some e
      ∧ ∃ ed, (⟨Status.errorResolved, false, false, some ⟨5, some (ThrowableM.exc 7)⟩, true, 5,
          false, false, 16, uint32Max⟩ : ClassState).extData = some ed
          ∧ ed.verifyError = some e :=
  claim_C6_error_transition.2.2 false
    ⟨Status.resolved, false, false, none, true, 5, false, false, 16, uint32Max⟩
    (some (ThrowableM.exc 7)) Status.errorResolved
    ⟨Status.errorResolved, false, false, some ⟨5, some (ThrowableM.exc 7)⟩, true, 5,
      false, false, 16, uint32Max⟩
    (some (ThrowableM.exc 7)) false (by decide) (by decide) (Or.inr (by decide))

/-- Claim C9 witness: a concrete interface receiver and interface-declared
query method pass the checks and the checked entry returns the resolution
result. -/
theorem claim_C9_witness :
    (none : Option MethodRec) =
      FindVirtualMethodForInterfaceSuper (fun _ _ => false)
        ⟨true, [], []⟩ ⟨"f", "()V", false, 0⟩ :=
  (claim_C9_interface_super_preconditions (fun _ _ => false) (fun _ => true)
      ⟨true, [], []⟩ ⟨"f", "()V", false, 0⟩).2 none (by decide)

/-- The common-prefix length is symmetric. -/
theorem commonPrefixLength_symm (l1 l2 : List Char) :
    commonPrefixLength l1 l2 = commonPrefixLength l2 l1 := by
  induction l1 generalizing l2 with
  | nil => cases l2 <;> rfl
  | cons a as ih =>
    cases l2 with
    | nil => rfl
    | cons b bs =>
      simp only [commonPrefixLength]
      by_cases hab : a = b
      · subst hab
        rw [if_pos rfl, if_pos rfl, ih]
      · rw [if_neg hab, if_neg (fun h => hab h.symm)]

/-- The descriptor overload of `IsInSamePackage` is symmetric. -/
theorem sameDesc_symm (d1 d2 : String) :
    IsInSamePackageDescriptors d1 d2 = IsInSamePackageDescriptors d2 d1 := by
  unfold IsInSamePackageDescriptors
  rw [commonPrefixLength_symm, Bool.or_comm]

/-- A descriptor's package prefix is empty exactly when it has no slash. -/
theorem upToLastSlash_eq_nil_iff (l : List Char) :
    upToLastSlash l = [] ↔ hasSlash l = false := by
  induction l with
  | nil => simp [upToLastSlash, hasSlash]
  | cons c rest ih =>
    cases hr : hasSlash rest with
    | true => simp [upToLastSlash, hasSlash, hr]
    | false =>
      by_cases hc : c = '/'
      · subst hc
        simp [upToLastSlash, hasSlash, hr]
      · simp [upToLastSlash, hasSlash, hr, hc]

/-- Two descriptors accepted by the same-package test have equal package
prefixes. -/
theorem sameDescL_prefix_eq : ∀ (l1 l2 : List Char),
    (!(hasSlash (l1.drop (commonPrefixLength l1 l2)) ||
       hasSlash (l2.drop (commonPrefixLength l1 l2)))) = true →
    upToLastSlash l1 = upToLastSlash l2 := by
  intro l1
  induction l1 with
  | nil =>
    intro l2 h
    have h2 : hasSlash l2 = false := by
      cases l2 with
      | nil => rfl
      | cons b bs => simpa [commonPrefixLength, hasSlash] using h
    rw [show upToLastSlash [] = [] from rfl, Eq.comm, upToLastSlash_eq_nil_iff]
    exact h2
  | cons a as ih =>
    intro l2 h
    cases l2 with
    | nil =>
      have h1 : hasSlash (a :: as) = false := by
        simpa [commonPrefixLength, hasSlash] using h
      rw [(upToLastSlash_eq_nil_iff (a :: as)).mpr h1]
      rfl
    | cons b bs =>
      by_cases hab : a = b
      · subst hab
        have h' : (!(hasSlash (as.drop (commonPrefixLength as bs)) ||
            hasSlash (bs.drop (commonPrefixLength as bs)))) = true := by
          simpa [commonPrefixLength, List.drop_succ_cons] using h
        have hup := ih bs h'
        cases hs : hasSlash as with
        | true =>
          have hbs : hasSlash bs = true := by
            by_contra hb
            have hb' : hasSlash bs = false := by simpa using hb
            have hnil : upToLastSlash as = [] := by
              rw [hup, (upToLastSlash_eq_nil_iff bs).mpr hb']
            rw [upToLastSlash_eq_nil_iff] at hnil
            rw [hnil] at hs
            exact Bool.noConfusion hs
          simp [upToLastSlash, hs, hbs, hup]
        | false =>
          have hbs : hasSlash bs = false := by
            by_contra hb
            have hb' : hasSlash bs = true := by simpa using hb
            have hasnil : upToLastSlash as = [] := (upToLastSlash_eq_nil_iff as).mpr hs
            rw [hup] at hasnil
            rw [upToLastSlash_eq_nil_iff] at hasnil
            rw [hasnil] at hb'
            exact Bool.noConfusion hb'
          simp [upToLastSlash, hs, hbs]
      · have hcpl : commonPrefixLength (a :: as) (b :: bs) = 0 := by
          simp [commonPrefixLength, hab]
        rw [hcpl] at h
        simp only [List.drop_zero] at h
        have h1 : hasSlash (a :: as) = false := by
          cases hx : hasSlash (a :: as) <;> simp_all
        have h2 : hasSlash (b :: bs) = false := by
          cases hx : hasSlash (b :: bs) <;> simp_all
        rw [(upToLastSlash_eq_nil_iff (a :: as)).mpr h1,
            (upToLastSlash_eq_nil_iff (b :: bs)).mpr h2]

/-- Claim C8: same-package membership is reflexive and symmetric, and it
holds only if the two types' class-loader identities match and, after
recursing through array types to their innermost non-array element types,
the descriptors' package prefixes (up to the last `/`) match. -/
theorem claim_C8_package_membership :
    (∀ k, IsInSamePackage k k = true)
  ∧ (∀ k1 k2, IsInSamePackage k1 k2 = IsInSamePackage k2 k1)
  ∧ (∀ k1 k2, IsInSamePackage k1 k2 = true →
      GetClassLoader k1 = GetClassLoader k2 ∧
      packagePart (GetDescriptor (elementType k1)) =
        packagePart (GetDescriptor (elementType k2))) := by
  refine ⟨fun k => by simp [IsInSamePackage], ?_, ?_⟩
  · intro k1 k2
    by_cases h12 : k1 = k2
    · subst h12; rfl
    · unfold IsInSamePackage
      rw [if_neg h12, if_neg (show ¬ k2 = k1 from fun h => h12 h.symm)]
      by_cases hL : GetClassLoader k1 = GetClassLoader k2
      · rw [if_neg (show ¬ GetClassLoader k1 ≠ GetClassLoader k2 from not_not_intro hL),
            if_neg (show ¬ GetClassLoader k2 ≠ GetClassLoader k1 from not_not_intro hL.symm)]
        by_cases hE : elementType k1 = elementType k2
        · rw [if_pos hE, if_pos (show elementType k2 = elementType k1 from hE.symm)]
        · rw [if_neg hE, if_neg (show ¬ elementType k2 = elementType k1 from fun h => hE h.symm),
              sameDesc_symm]
      · rw [if_pos (show GetClassLoader k1 ≠ GetClassLoader k2 from hL),
            if_pos (show GetClassLoader k2 ≠ GetClassLoader k1 from fun h => hL h.symm)]
  · intro k1 k2 h
    by_cases h12 : k1 = k2
    · subst h12; exact ⟨rfl, rfl⟩
    · unfold IsInSamePackage at h
      rw [if_neg h12] at h
      split_ifs at h with hL hE
      · exact ⟨not_not.mp hL, by rw [hE]⟩
      · refine ⟨not_not.mp hL, ?_⟩
        unfold IsInSamePackageDescriptors at h
        exact sameDescL_prefix_eq _ _ h

/-- Claim C8 witness: two same-loader classes of package `a` are accepted,
with matching loaders and package prefixes. -/
theorem claim_C8_witness :
    GetClassLoader (JClass.scalar 0 "La/B;") = GetClassLoader (JClass.scalar 0 "La/C;")
  ∧ packagePart (GetDescriptor (elementType (JClass.scalar 0 "La/B;"))) =
      packagePart (GetDescriptor (elementType (JClass.scalar 0 "La/C;"))) :=
  claim_C8_package_membership.2.2 (JClass.scalar 0 "La/B;") (JClass.scalar 0 "La/C;")
    (by decide)

/-- Character comparison yields `eq` exactly on equal characters. -/
theorem charCmp_eq_iff (a b : Char) : charCmp a b = Ordering.eq ↔ a = b := by
  unfold charCmp
  split_ifs with h1 h2
  · simp only [reduceCtorEq, false_iff]
    exact fun he => absurd he.symm (ne_of_gt h1)
  · simp only [reduceCtorEq, false_iff]
    exact fun he => absurd he (ne_of_gt h2)
  · simp only [true_iff]
    exact le_antisymm (not_lt.mp h2) (not_lt.mp h1)

/-- Character comparison yields `lt` exactly when the first is smaller. -/
theorem charCmp_lt_iff (a b : Char) : charCmp a b = Ordering.lt ↔ a < b := by
  unfold charCmp
  split_ifs with h1 h2
  · simp [h1]
  · simp only [reduceCtorEq, false_iff]
    exact h1
  · simp only [reduceCtorEq, false_iff]
    exact h1

/-- Character comparison yields `gt` exactly when the second is smaller. -/
theorem charCmp_gt_iff (a b : Char) : charCmp a b = Ordering.gt ↔ b < a := by
  unfold charCmp
  split_ifs with h1 h2
  · simp only [reduceCtorEq, false_iff]
    exact fun h => absurd h1 (lt_asymm h)
  · simp [h2]
  · simp only [reduceCtorEq, false_iff]
    exact h2

/-- Lexicographic comparison yields `eq` exactly on equal lists. -/
theorem lexCmp_eq_iff : ∀ (l1 l2 : List Char), lexCmp l1 l2 = Ordering.eq ↔ l1 = l2 := by
  intro l1
  induction l1 with
  | nil => intro l2; cases l2 <;> simp [lexCmp]
  | cons a as ih =>
    intro l2
    cases l2 with
    | nil => simp [lexCmp]
    | cons b bs =>
      simp only [lexCmp]
      cases hc : charCmp a b with
      | eq =>
        have hab : a = b := (charCmp_eq_iff a b).mp hc
        subst hab
        simp [ih]
      | lt =>
        have : ¬ a = b := fun h => by
          rw [h] at hc
          rw [(charCmp_eq_iff b b).mpr rfl] at hc
          exact Ordering.noConfusion hc
        simp [this]
      | gt =>
        have : ¬ a = b := fun h => by
          rw [h] at hc
          rw [(charCmp_eq_iff b b).mpr rfl] at hc
          exact Ordering.noConfusion hc
        simp [this]

/-- Swapping the arguments of the lexicographic comparison swaps `lt`/`gt`. -/
theorem lexCmp_lt_gt : ∀ (l1 l2 : List Char),
    lexCmp l1 l2 = Ordering.lt ↔ lexCmp l2 l1 = Ordering.gt := by
  intro l1
  induction l1 with
  | nil => intro l2; cases l2 <;> simp [lexCmp]
  | cons a as ih =>
    intro l2
    cases l2 with
    | nil => simp [lexCmp]
    | cons b bs =>
      simp only [lexCmp]
      cases hc : charCmp a b with
      | eq =>
        have hab : a = b := (charCmp_eq_iff a b).mp hc
        subst hab
        rw [(charCmp_eq_iff a a).mpr rfl]
        exact ih bs
      | lt =>
        have hgt : charCmp b a = Ordering.gt :=
          (charCmp_gt_iff b a).mpr ((charCmp_lt_iff a b).mp hc)
        rw [hgt]
        simp
      | gt =>
        have hlt : charCmp b a = Ordering.lt :=
          (charCmp_lt_iff b a).mpr ((charCmp_gt_iff a b).mp hc)
        rw [hlt]
        simp

/-- The strict lexicographic order is transitive. -/
theorem lexCmp_lt_trans : ∀ (l1 l2 l3 : List Char),
    lexCmp l1 l2 = Ordering.lt → lexCmp l2 l3 = Ordering.lt →
    lexCmp l1 l3 = Ordering.lt := by
  intro l1
  induction l1 with
  | nil =>
    intro l2 l3 h12 h23
    cases l3 with
    | nil =>
      cases l2 with
      | nil => exact h12
      | cons b bs => simp [lexCmp] at h23
    | cons c cs => simp [lexCmp]
  | cons a as ih =>
    intro l2 l3 h12 h23
    cases l2 with
    | nil => simp [lexCmp] at h12
    | cons b bs =>
      cases l3 with
      | nil => simp [lexCmp] at h23
      | cons c cs =>
        simp only [lexCmp] at h12 h23 ⊢
        cases hab : charCmp a b with
        | gt => simp [hab] at h12
        | lt =>
          cases hbc : charCmp b c with
          | gt => simp [hbc] at h23
          | lt =>
            have hac : charCmp a c = Ordering.lt := (charCmp_lt_iff a c).mpr
              (lt_trans ((charCmp_lt_iff a b).mp hab) ((charCmp_lt_iff b c).mp hbc))
            simp [hac]
          | eq =>
            have hbceq : b = c := (charCmp_eq_iff b c).mp hbc
            subst hbceq
            simp [hab]
        | eq =>
          have habeq : a = b := (charCmp_eq_iff a b).mp hab
          subst habeq
          simp only [hab] at h12
          cases hbc : charCmp a c with
          | gt => simp [hbc] at h23
          | lt => simp [hbc]
          | eq =>
            have hacq : a = c := (charCmp_eq_iff a c).mp hbc
            subst hacq
            simp only [hbc] at h23 ⊢
            exact ih bs cs h12 h23

/-- String comparison yields `eq` exactly on equal strings. -/
theorem strCmp_eq_iff (a b : String) : strCmp a b = Ordering.eq ↔ a = b := by
  unfold strCmp
  rw [lexCmp_eq_iff]
  constructor
  · intro h
    cases a
    cases b
    exact congrArg String.mk h
  · intro h
    rw [h]

/-- Swapping the arguments of the string comparison swaps `lt`/`gt`. -/
theorem strCmp_lt_gt (a b : String) :
    strCmp a b = Ordering.lt ↔ strCmp b a = Ordering.gt := lexCmp_lt_gt a.data b.data

/-- The strict string order is transitive. -/
theorem strCmp_lt_trans {a b c : String} (h1 : strCmp a b = Ordering.lt)
    (h2 : strCmp b c = Ordering.lt) : strCmp a c = Ordering.lt :=
  lexCmp_lt_trans a.data b.data c.data h1 h2

/-- The reverse strict string order is transitive. -/
theorem strCmp_gt_trans {a b c : String} (h1 : strCmp a b = Ordering.gt)
    (h2 : strCmp b c = Ordering.gt) : strCmp a c = Ordering.gt := by
  rw [← strCmp_lt_gt] at h1 h2 ⊢
  exact strCmp_lt_trans h2 h1

/-- A string compares `eq` with itself. -/
theorem strCmp_self (a : String) : strCmp a a = Ordering.eq := (strCmp_eq_iff a a).mpr rfl

/-- The (name, type) key comparison yields `eq` exactly on a full match. -/
theorem fieldKeyCmp_eq_iff (f : ArtField) (n t : String) :
    fieldKeyCmp f n t = Ordering.eq ↔ (f.name = n ∧ f.typeDescriptor = t) := by
  unfold fieldKeyCmp
  cases h : strCmp f.name n with
  | eq =>
    rw [strCmp_eq_iff]
    simp [(strCmp_eq_iff f.name n).mp h]
  | lt =>
    simp only [reduceCtorEq, false_iff, not_and]
    intro he
    rw [(strCmp_eq_iff f.name n).mpr he] at h
    exact Ordering.noConfusion h
  | gt =>
    simp only [reduceCtorEq, false_iff, not_and]
    intro he
    rw [(strCmp_eq_iff f.name n).mpr he] at h
    exact Ordering.noConfusion h

/-- Unfolding of `fieldKeyCmp` at `lt` as a lexicographic disjunction. -/
theorem fieldKeyCmp_lt_iff (f : ArtField) (n t : String) :
    fieldKeyCmp f n t = Ordering.lt ↔
      (strCmp f.name n = Ordering.lt ∨
        (f.name = n ∧ strCmp f.typeDescriptor t = Ordering.lt)) := by
  unfold fieldKeyCmp
  cases h : strCmp f.name n with
  | eq => simp [h, (strCmp_eq_iff f.name n).mp h]
  | lt => simp [h]
  | gt =>
    simp only [reduceCtorEq, false_iff, h, false_or, not_and]
    intro he
    rw [(strCmp_eq_iff f.name n).mpr he] at h
    exact Ordering.noConfusion h

/-- Unfolding of `fieldKeyCmp` at `gt` as a lexicographic disjunction. -/
theorem fieldKeyCmp_gt_iff (f : ArtField) (n t : String) :
    fieldKeyCmp f n t = Ordering.gt ↔
      (strCmp f.name n = Ordering.gt ∨
        (f.name = n ∧ strCmp f.typeDescriptor t = Ordering.gt)) := by
  unfold fieldKeyCmp
  cases h : strCmp f.name n with
  | eq => simp [h, (strCmp_eq_iff f.name n).mp h]
  | gt => simp [h]
  | lt =>
    simp only [reduceCtorEq, false_iff, h, false_or, not_and]
    intro he
    rw [(strCmp_eq_iff f.name n).mpr he] at h
    exact Ordering.noConfusion h

/-- Unfolding of the record order as a lexicographic disjunction. -/
theorem fieldRecLt_iff (a b : ArtField) :
    fieldRecLt a b ↔
      (strCmp a.name b.name = Ordering.lt ∨
        (a.name = b.name ∧ strCmp a.typeDescriptor b.typeDescriptor = Ordering.lt)) :=
  fieldKeyCmp_lt_iff a b.name b.typeDescriptor

/-- A record below one that compares `lt` against the query also compares
`lt`. -/
theorem fieldKeyCmp_lt_of_recLt_of_lt {a b : ArtField} {n t : String}
    (hab : fieldRecLt a b) (hbq : fieldKeyCmp b n t = Ordering.lt) :
    fieldKeyCmp a n t = Ordering.lt := by
  rw [fieldKeyCmp_lt_iff]
  rcases (fieldRecLt_iff a b).mp hab with h1 | ⟨h1, h1t⟩ <;>
    rcases (fieldKeyCmp_lt_iff b n t).mp hbq with h2 | ⟨h2, h2t⟩
  · exact Or.inl (strCmp_lt_trans h1 h2)
  · exact Or.inl (h2 ▸ h1)
  · exact Or.inl (h1 ▸ h2)
  · exact Or.inr ⟨h1.trans h2, strCmp_lt_trans h1t h2t⟩

/-- A record below one that matches the query compares `lt`. -/
theorem fieldKeyCmp_lt_of_recLt_of_eq {a b : ArtField} {n t : String}
    (hab : fieldRecLt a b) (hbq : fieldKeyCmp b n t = Ordering.eq) :
    fieldKeyCmp a n t = Ordering.lt := by
  obtain ⟨hn, ht⟩ := (fieldKeyCmp_eq_iff b n t).mp hbq
  rw [← hn, ← ht]
  exact hab

/-- A record above one that compares `gt` against the query also compares
`gt`. -/
theorem fieldKeyCmp_gt_of_recLt_of_gt {a b : ArtField} {n t : String}
    (hab : fieldRecLt a b) (haq : fieldKeyCmp a n t = Ordering.gt) :
    fieldKeyCmp b n t = Ordering.gt := by
  rw [fieldKeyCmp_gt_iff]
  rcases (fieldRecLt_iff a b).mp hab with h1 | ⟨h1, h1t⟩ <;>
    rcases (fieldKeyCmp_gt_iff a n t).mp haq with h2 | ⟨h2, h2t⟩
  · exact Or.inl (strCmp_gt_trans ((strCmp_lt_gt a.name b.name).mp h1) h2)
  · exact Or.inl (h2 ▸ (strCmp_lt_gt a.name b.name).mp h1)
  · exact Or.inl (h1 ▸ h2)
  · exact Or.inr ⟨h1.symm.trans h2, strCmp_gt_trans ((strCmp_lt_gt _ _).mp h1t) h2t⟩

/-- A record above one that matches the query compares `gt`. -/
theorem fieldKeyCmp_gt_of_eq_of_recLt {a b : ArtField} {n t : String}
    (haq : fieldKeyCmp a n t = Ordering.eq) (hab : fieldRecLt a b) :
    fieldKeyCmp b n t = Ordering.gt := by
  obtain ⟨hn, ht⟩ := (fieldKeyCmp_eq_iff a n t).mp haq
  rw [fieldKeyCmp_gt_iff, ← hn, ← ht]
  rcases (fieldRecLt_iff a b).mp hab with h1 | ⟨h1, h1t⟩
  · exact Or.inl ((strCmp_lt_gt a.name b.name).mp h1)
  · exact Or.inr ⟨h1.symm, (strCmp_lt_gt _ _).mp h1t⟩

/-- A linear scan returns the element at the first matching index. -/
theorem find?_eq_some_of_first {α} (l : List α) (p : α → Bool) :
    ∀ (k : Nat) (hk : k < l.length), p l[k] = true →
      (∀ i (hi : i < l.length), i < k → p l[i] = false) →
      l.find? p = some l[k] := by
  induction l with
  | nil => intro k hk; exact absurd hk (by simp)
  | cons a as ih =>
    intro k hk hpk hbef
    cases k with
    | zero =>
      simp only [List.getElem_cons_zero] at hpk
      simp [List.find?_cons, hpk]
    | succ k =>
      have ha : p a = false := by
        have := hbef 0 (by simp) (Nat.succ_pos k)
        simpa using this
      have hk' : k < as.length := by simpa using hk
      have hpk' : p as[k] = true := by simpa using hpk
      have hbef' : ∀ i (hi : i < as.length), i < k → p as[i] = false := by
        intro i hi hik
        have := hbef (i + 1) (by simpa using Nat.succ_lt_succ hi) (Nat.succ_lt_succ hik)
        simpa using this
      have := ih k hk' hpk' hbef'
      simp [List.find?_cons, ha, this]

/-- A table with no key-equal entry makes the linear scan miss. -/
theorem linearScan_eq_none_of_no_eq (fields : List ArtField) (n t : String)
    (h : ∀ i (hi : i < fields.length), fieldKeyCmp fields[i] n t ≠ Ordering.eq) :
    FindFieldLinearScan fields n t = none := by
  unfold FindFieldLinearScan
  rw [List.find?_eq_none]
  intro f hf
  obtain ⟨i, hi, rfl⟩ := List.mem_iff_getElem.mp hf
  intro hp
  apply h i hi
  rw [fieldKeyCmp_eq_iff]
  have hn : n = fields[i].name := by
    have := (Bool.and_eq_true _ _).mp hp
    exact beq_iff_eq.mp this.1
  have ht : t = fields[i].typeDescriptor := by
    have := (Bool.and_eq_true _ _).mp hp
    exact beq_iff_eq.mp this.2
  exact ⟨hn.symm, ht.symm⟩

/-- Bracketing invariant of the binary-search loop: with every index below
`low` comparing `lt` and every index from `high` up comparing `gt`, the loop
computes exactly the linear-scan result. -/
theorem binarySearchLoop_eq_linearScan (fields : List ArtField) (n t : String)
    (hsort : List.Pairwise fieldRecLt fields) :
    ∀ (fuel low high : Nat), high - low ≤ fuel → high ≤ fields.length →
      (∀ i (hi : i < fields.length), i < low →
        fieldKeyCmp fields[i] n t = Ordering.lt) →
      (∀ i (hi : i < fields.length), high ≤ i →
        fieldKeyCmp fields[i] n t = Ordering.gt) →
      FindFieldBinarySearchLoop fields n t low high = FindFieldLinearScan fields n t := by
  have hpair : ∀ i j (hi : i < fields.length) (hj : j < fields.length), i < j →
      fieldRecLt fields[i] fields[j] := by
    intro i j hi hj hij
    exact List.pairwise_iff_getElem.mp hsort i j hi hj hij
  intro fuel
  induction fuel with
  | zero =>
    intro low high hfuel hhigh hlo hhi
    have hle : high ≤ low := by omega
    rw [FindFieldBinarySearchLoop, dif_neg (by omega : ¬ low < high)]
    symm
    apply linearScan_eq_none_of_no_eq
    intro i hi
    by_cases hil : i < low
    · rw [hlo i hi hil]; simp
    · rw [hhi i hi (by omega)]; simp
  | succ fuel ih =>
    intro low high hfuel hhigh hlo hhi
    by_cases hlh : low < high
    · have hmid : (low + high) / 2 < fields.length := by omega
      rw [FindFieldBinarySearchLoop, dif_pos hlh,
          List.getD_eq_getElem fields defaultArtField hmid]
      cases hcmp : fieldKeyCmp fields[(low + high) / 2] n t with
      | lt =>
        simp only
        apply ih ((low + high) / 2 + 1) high (by omega) hhigh
        · intro i hi hile
          by_cases hil : i < low
          · exact hlo i hi hil
          · by_cases hieq : i = (low + high) / 2
            · subst hieq; exact hcmp
            · exact fieldKeyCmp_lt_of_recLt_of_lt
                (hpair i ((low + high) / 2) hi hmid (by omega)) hcmp
        · exact hhi
      | gt =>
        simp only
        apply ih low ((low + high) / 2) (by omega) (by omega) hlo
        intro i hi hige
        by_cases hieq : i = (low + high) / 2
        · subst hieq; exact hcmp
        · exact fieldKeyCmp_gt_of_recLt_of_gt
            (hpair ((low + high) / 2) i hmid hi (by omega)) hcmp
      | eq =>
        simp only
        symm
        unfold FindFieldLinearScan
        apply find?_eq_some_of_first
        · obtain ⟨hn, ht⟩ := (fieldKeyCmp_eq_iff _ n t).mp hcmp
          rw [hn, ht]
          simp
        · intro i hi hilt
          have hlt : fieldKeyCmp fields[i] n t = Ordering.lt := by
            by_cases hil : i < low
            · exact hlo i hi hil
            · exact fieldKeyCmp_lt_of_recLt_of_eq
                (hpair i ((low + high) / 2) hi hmid (by omega)) hcmp
          cases hb : (n == fields[i].name && t == fields[i].typeDescriptor)
          · rfl
          · exfalso
            have hx := (Bool.and_eq_true _ _).mp hb
            have heq : fieldKeyCmp fields[i] n t = Ordering.eq := by
              rw [fieldKeyCmp_eq_iff]
              exact ⟨(beq_iff_eq.mp hx.1).symm, (beq_iff_eq.mp hx.2).symm⟩
            rw [heq] at hlt
            exact Ordering.noConfusion hlt
    · have hle : high ≤ low := by omega
      rw [FindFieldBinarySearchLoop, dif_neg hlh]
      symm
      apply linearScan_eq_none_of_no_eq
      intro i hi
      by_cases hil : i < low
      · rw [hlo i hi hil]; simp
      · rw [hhi i hi (by omega)]; simp

/-- Claim C4: for every field table sorted by (name, then type-descriptor)
and every (name, type) query key, the binary-search declared-field lookup
returns the same result as an exhaustive linear scan over the table,
including returning none when no entry matches.  Sortedness is the strict
(duplicate-free) key order that dex field tables satisfy. -/
theorem claim_C4_field_lookup_equivalence :
    ∀ (fields : List ArtField) (n t : String),
      List.Pairwise fieldRecLt fields →
      FindFieldByNameAndType fields n t = FindFieldLinearScan fields n t := by
  intro fields n t hsort
  unfold FindFieldByNameAndType
  apply binarySearchLoop_eq_linearScan fields n t hsort fields.length 0 fields.length
    (by omega) le_rfl
  · intro i hi h
    exact absurd h (by omega)
  · intro i hi h
    exact absurd hi (by omega)

/-- Claim C4 witness: a concrete sorted three-entry table and a concrete
hit query. -/
theorem claim_C4_witness :
    List.Pairwise fieldRecLt
      [(⟨"a", "I", 0⟩ : ArtField), ⟨"b", "I", 1⟩, ⟨"b", "J", 2⟩]
  ∧ FindFieldByNameAndType [(⟨"a", "I", 0⟩ : ArtField), ⟨"b", "I", 1⟩, ⟨"b", "J", 2⟩]
      "b" "I" =
    FindFieldLinearScan [(⟨"a", "I", 0⟩ : ArtField), ⟨"b", "I", 1⟩, ⟨"b", "J", 2⟩]
      "b" "I" :=
  ⟨by decide,
   claim_C4_field_lookup_equivalence
     [(⟨"a", "I", 0⟩ : ArtField), ⟨"b", "I", 1⟩, ⟨"b", "J", 2⟩] "b" "I" (by decide)⟩

end ArtMirror
